import Mathlib

/-!
Shallow embedding of the scenario / sample-path model and the Monte Carlo
policy-evaluation engine of the msppy repository (files msppy/msp.py and
msppy/evaluation.py), together with theorems settling the frozen claims
about it.

Probabilities and policy values are modelled as rationals; machine indices
as naturals.  Python's itertools.product over a list of index ranges is
modelled by listProd; itertools.product of two lists by pairProd.
-/

namespace MSPPy

/-- Cartesian product of a list of lists, in the order of Python's
itertools.product: first list outermost (lexicographic). -/
def listProd {α : Type} : List (List α) → List (List α)
  | [] => [[]]
  | l :: ls => l.flatMap (fun a => (listProd ls).map (fun p => a :: p))

/-- Cartesian product of two lists, as in itertools.product with two
arguments: the first list is the outer loop. -/
def pairProd {α β : Type} (l1 : List α) (l2 : List β) : List (α × β) :=
  l1.flatMap (fun a => l2.map (fun b => (a, b)))

/-- Stage model of the stochastic program, restricted to the fields the
probability structure uses: the number of discrete outcomes (n_samples) and
the optional probability measure on them (probability; None means uniform,
as in StochasticModel). -/
structure StageModel where
  n_samples : Nat
  probability : Option (List ℚ)
deriving Repr, DecidableEq

/-- Discrete data of an MSLP as used by enumeration, weights and evaluation:
either a stage-wise independent program (n_Markov_states == 1 branch of the
Python source, one StochasticModel per stage) or a Markov-chain program
(one StochasticModel per stage per Markov state, plus the per-stage
Markov-state counts and the per-stage transition matrices). -/
inductive ModelData where
  | indep (models : List StageModel)
  | markov (models : List (List StageModel)) (n_Markov_states : List Nat)
      (transition_matrix : List (List (List ℚ)))
deriving Repr, DecidableEq

/-- Sample path as produced by MSLP._enumerate_sample_paths: a tuple of
per-stage outcome indices in the independent case, a pair of (outcome index
tuple, Markov-state index tuple) in the mixed case. -/
inductive SPath where
  | ind (idx : List Nat)
  | pair (outcome : List Nat) (markov : List Nat)
deriving Repr, DecidableEq

/-- Uniform probability measure on n outcomes, as produced by
MSLP._set_up_probability when a stage model declares no measure. -/
def uniformProb (n : Nat) : List ℚ :=
  List.replicate n (1 / (n : ℚ))

/-- MSLP._set_up_probability, independent branch: per stage, the declared
measure or the uniform one. -/
def set_up_probability_indep (models : List StageModel) : List (List ℚ) :=
  models.map (fun m => m.probability.getD (uniformProb m.n_samples))

/-- MSLP._set_up_probability, Markov branch: per stage and per Markov
state, the declared measure or the uniform one. -/
def set_up_probability_markov (models : List (List StageModel)) :
    List (List (List ℚ)) :=
  models.map (fun ms => ms.map (fun m => m.probability.getD (uniformProb m.n_samples)))

/-- Default stage model used to translate Python's raising list indexing
into total Lean indexing (theorems carry the in-range hypotheses under
which the default is never consulted). -/
def dfltModel : StageModel := ⟨0, none⟩

/-- MSLP._enumerate_sample_paths.  The argument T is the index of the last
stage, as in the source (the evaluation engine calls it with MSP.T - 1);
stages 0 .. T are enumerated.  Returns the reported number of sample paths
and the list of sample paths. -/
def enumerate_sample_paths (M : ModelData) (T : Nat) : Nat × List SPath :=
  match M with
  | .indep models =>
      (((List.range (T + 1)).map (fun t => (models.getD t dfltModel).n_samples)).prod,
       (listProd ((List.range (T + 1)).map
          (fun t => List.range (models.getD t dfltModel).n_samples))).map SPath.ind)
  | .markov models n_Markov_states _ =>
      let n_sample_paths :=
        ((List.range (T + 1)).map
          (fun t => ((models.getD t []).getD 0 dfltModel).n_samples)).prod
      let sample_paths :=
        listProd ((List.range (T + 1)).map
          (fun t => List.range ((models.getD t []).getD 0 dfltModel).n_samples))
      let n_Markov_state_paths := n_Markov_states.prod
      let Markov_state_paths :=
        listProd ((List.range (T + 1)).map
          (fun t => List.range (n_Markov_states.getD t 0)))
      (n_Markov_state_paths * n_sample_paths,
       (pairProd sample_paths Markov_state_paths).map
         (fun p => SPath.pair p.1 p.2))

/-- MSLP._compute_weight_sample_path: the probability of going through a
full sample path.  Independent case: product over stages of the stage-wise
outcome probability.  Mixed case: product of the transition probabilities
along the Markov-state index sequence (stages 1 .. T-1) times the product
of the per-Markov-state conditional outcome probabilities (stages
0 .. T-1). -/
def compute_weight_sample_path (M : ModelData) (sample_path : SPath) : ℚ :=
  match M, sample_path with
  | .indep models, .ind path =>
      let probability := set_up_probability_indep models
      ((List.range path.length).map
        (fun t => (probability.getD t []).getD (path.getD t 0) 0)).prod
  | .markov models _ transition_matrix, .pair outcome markov =>
      let probability := set_up_probability_markov models
      let T := outcome.length
      (((List.range (T - 1)).map (fun i =>
          ((transition_matrix.getD (i + 1) []).getD (markov.getD i 0) []).getD
            (markov.getD (i + 1) 0) 0)).prod)
      * (((List.range T).map (fun t =>
          ((probability.getD t []).getD (markov.getD t 0) []).getD
            (outcome.getD t 0) 0)).prod)
  | _, _ => 0

/-- Spec-side per-stage outcome probability (§4.1 probabilityOf): the
declared probability of outcome i, defaulting to uniform.  Used only to
compare the source's weight computation against the spec's wording. -/
def probabilityOf (m : StageModel) (i : Nat) : ℚ :=
  match m.probability with
  | some p => p.getD i 0
  | none => 1 / (m.n_samples : ℚ)

/-- Value stored in the gap attribute by _Evaluation._compute_gap: a finite
numeric gap, a non-finite IEEE float (inf, -inf or nan) silently produced
by a numpy division by zero, or the string sentinel the except clause
assigns when a ZeroDivisionError was raised. -/
inductive GapResult where
  | val (g : ℚ)
  | nonfinite
  | nan
deriving Repr, DecidableEq

/-- Exceptions the body of _compute_gap can raise: ZeroDivisionError from a
Python float division by zero (caught by the except clause), IndexError
from self.pv[0] on an empty per-path-value list (not caught). -/
inductive PyErr where
  | zeroDivision
  | indexError
deriving Repr, DecidableEq

/-- Python float division: raises ZeroDivisionError on a zero
denominator. -/
def pydiv (a b : ℚ) : Except PyErr ℚ :=
  if b = 0 then Except.error PyErr.zeroDivision else Except.ok (a / b)

/-- Value of a numpy.float64 computation: a finite value, or one of the
non-finite IEEE values inf, -inf, nan. -/
inductive NpVal where
  | finite (q : ℚ)
  | nonfinite
deriving Repr, DecidableEq

/-- Division of a numpy.float64 by zero does not raise: it emits a
RuntimeWarning and yields a non-finite IEEE value (inf, -inf or nan). -/
def npdiv (a b : ℚ) : NpVal :=
  if b = 0 then NpVal.nonfinite else NpVal.finite (a / b)

/-- Absolute value on numpy.float64: the absolute value of inf, -inf or
nan is again non-finite. -/
def np_abs : NpVal → NpVal
  | NpVal.finite q => NpVal.finite |q|
  | NpVal.nonfinite => NpVal.nonfinite

/-- Python list indexing (self.pv[0]): raises IndexError when the index is
out of range. -/
def list_getitem (l : List ℚ) (i : Nat) : Except PyErr ℚ :=
  if h : i < l.length then Except.ok (l.get ⟨i, h⟩) else Except.error PyErr.indexError

/-- Gap value computed by the epv branch of _compute_gap: self.epv is the
numpy.float64 returned by numpy.dot (evaluation.py line 176), so
abs((epv - db) / db) never raises; with db = 0 it is a non-finite float. -/
def compute_gap_epv (db e : ℚ) : GapResult :=
  match np_abs (npdiv (e - db) db) with
  | NpVal.finite g => GapResult.val g
  | NpVal.nonfinite => GapResult.nonfinite

/-- Body of the try block of _Evaluation._compute_gap.  The CI entries and
the per-path values are Python floats (compute_CI's output and the
multiprocessing "d"-array / solver scalars), so their divisions raise
ZeroDivisionError on db = 0; self.epv is the numpy.float64 of numpy.dot,
so its branch never raises; self.pv[0] raises IndexError on an empty
per-path-value list. -/
def compute_gap_try (sense : Int) (db : ℚ) (CI : Option (ℚ × ℚ))
    (epv : Option ℚ) (pv : List ℚ) : Except PyErr GapResult :=
  match CI with
  | some ci =>
      if sense = 1 then (pydiv (ci.2 - db) db).map (fun q => GapResult.val |q|)
      else (pydiv (db - ci.1) db).map (fun q => GapResult.val |q|)
  | none =>
      match epv with
      | some e => Except.ok (compute_gap_epv db e)
      | none =>
          match list_getitem pv 0 with
          | Except.error err => Except.error err
          | Except.ok x => (pydiv (x - db) db).map (fun q => GapResult.val |q|)

/-- _Evaluation._compute_gap: the try body with the except clause that
turns a ZeroDivisionError into the nan sentinel; an IndexError is not
caught and propagates. -/
def compute_gap (sense : Int) (db : ℚ) (CI : Option (ℚ × ℚ))
    (epv : Option ℚ) (pv : List ℚ) : Except PyErr GapResult :=
  match compute_gap_try sense db CI epv pv with
  | Except.ok g => Except.ok g
  | Except.error PyErr.zeroDivision => Except.ok GapResult.nan
  | Except.error PyErr.indexError => Except.error PyErr.indexError

/-- Errors the evaluation run can raise: the NotImplementedError guard on
per-path queries with multiple processes, the UnboundLocalError caused by
reading the local variable pv, which is assigned only in the
multiprocessing branch, when computing the exact expected policy value, and
the IndexError of _compute_gap reading self.pv[0] from an empty list
(unreachable through run, which for every n_simulations leaves it a
confidence interval, an exact expected value, or a nonempty pv to divide). -/
inductive RunError where
  | notImplemented
  | unboundLocalPv
  | indexError
deriving Repr, DecidableEq

/-- Aggregate state of the evaluation after a successful run: the per-path
policy values, the exact expected policy value (exhaustive runs only), the
confidence interval, and the gap. -/
structure RunResult where
  pv : List ℚ
  epv : Option ℚ
  CI : Option (ℚ × ℚ)
  gap : GapResult
deriving Repr, DecidableEq

/-- Outcome of _Evaluation.run: how many times the external policy/solver
collaborator was invoked (one call per simulated sample path), and either
the aggregate result or the error raised. -/
structure RunOutcome where
  solverCalls : Nat
  result : Except RunError RunResult
deriving Repr

/-- Arguments of _Evaluation.run.  query and query_dual keep Python's
None / list distinction because the source guard tests them against
None. -/
structure RunInput where
  n_simulations : Int
  percentile : ℚ
  query : Option (List String)
  query_dual : Option (List String)
  query_stage_cost : Bool
  n_processes : Nat
deriving Repr, DecidableEq

/-- Dot product of two equal-length rational vectors (numpy.dot). -/
def dotList (a b : List ℚ) : ℚ :=
  (List.zipWith (fun x y => x * y) a b).sum

/-- Evaluation._compute_sample_path_idx_and_markovian_path for the
approximation model: with the exhaustive sentinel, enumerate all sample
paths of stages 0 .. T-1; otherwise the number of sample paths is the
requested number of simulations and no index list is prepared. -/
def compute_sample_path_idx (M : ModelData) (T : Nat) (n_simulations : Int) :
    Nat × Option (List SPath) :=
  if n_simulations = -1 then
    let e := enumerate_sample_paths M (T - 1)
    (e.1, some e.2)
  else
    (n_simulations.toNat, none)

/-- Evaluation.run (via _Evaluation.run), for a stage-wise independent or
Markov chain program of horizon T.  The external policy/solver collaborator
is abstracted as forward (the policy value of the j-th sample path; §6
declares it deterministic given identical inputs), and compute_CI (from
msppy.utils.statistics, not part of this core) as an opaque function
argument.  Control flow follows the source: the NotImplementedError guard
first, then the simulation of every sample path, then the exact expected
policy value (exhaustive runs read the local variable pv, which only the
multiprocessing branch assigns), then the confidence interval, then the
gap. -/
def eval_run (M : ModelData) (T : Nat) (sense : Int) (db : ℚ)
    (forward : Nat → ℚ) (compute_CI : List ℚ → ℚ → ℚ × ℚ)
    (inp : RunInput) : RunOutcome :=
  if inp.n_processes ≠ 1 ∧
      (inp.query.isSome ∨ inp.query_dual.isSome ∨ inp.query_stage_cost) then
    ⟨0, Except.error RunError.notImplemented⟩
  else
    let spi := compute_sample_path_idx M T inp.n_simulations
    let n_sample_paths := spi.1
    let sample_path_idx := spi.2
    let pvSelf := (List.range n_sample_paths).map forward
    let pvLocal : Option (List ℚ) :=
      if inp.n_processes ≠ 1 then some pvSelf else none
    let epvE : Except RunError (Option ℚ) :=
      if inp.n_simulations = -1 then
        match pvLocal with
        | none => Except.error RunError.unboundLocalPv
        | some arr =>
            Except.ok (some (dotList arr ((List.range n_sample_paths).map
              (fun j => compute_weight_sample_path M
                ((sample_path_idx.getD []).getD j (SPath.ind []))))))
      else Except.ok none
    match epvE with
    | Except.error e => ⟨n_sample_paths, Except.error e⟩
    | Except.ok epv =>
        let CI :=
          if inp.n_simulations ≠ -1 ∧ inp.n_simulations ≠ 1 then
            some (compute_CI pvSelf inp.percentile)
          else none
        ⟨n_sample_paths,
         match compute_gap sense db CI epv pvSelf with
         | Except.ok g => Except.ok ⟨pvSelf, epv, CI, g⟩
         | Except.error _ => Except.error RunError.indexError⟩

/-- _Evaluation.run_single, reduced to its randomness structure: the worker
builds one random state from the seed list consisting of the fixed
high-order component 2^32 - 1 and the index of its first assigned sample
path, and then simulates each of its jobs with that state.  The random
state type R and the stream constructor are abstract (numpy's RandomState);
forward is the external solver consuming the state. -/
def run_single_seeded {R : Type} (forward : R → Nat → ℚ)
    (randomStream : List Nat → R) (jobs : List Nat) : List (Nat × ℚ) :=
  let random_state := randomStream [2 ^ 32 - 1, jobs.headD 0]
  jobs.map (fun j => (j, forward random_state j))

/-- Squared Euclidean distance between two vectors (numpy
sum((a - b)**2)). -/
def dist_sq (a b : List ℚ) : ℚ :=
  (List.zipWith (fun x y => (x - y) * (x - y)) a b).sum

/-- Index of the first occurrence of the minimum of a list
(numpy.argmin). -/
def argminFirst : List ℚ → Nat
  | [] => 0
  | x :: xs => if xs.all (fun z => decide (x ≤ z)) then 0 else argminFirst xs + 1

/-- EvaluationTrue._compute_sample_path_idx_and_markovian_path, Markovian
branch, markovian_idx part: a zero-initialized n_simulations × T matrix of
Markov-state indices whose columns 1 .. T-1 are filled with the index of
the discretized Markov state nearest (in squared Euclidean distance) to the
simulated continuous sample of that stage; column 0 keeps its initial
zero. -/
def compute_markovian_idx (Markov_states : List (List (List ℚ))) (T : Nat)
    (markovian_samples : List (List (List ℚ))) : List (List Nat) :=
  markovian_samples.map (fun traj =>
    (List.range T).map (fun t =>
      if t = 0 then 0
      else argminFirst ((Markov_states.getD t []).map
        (fun markov_state => dist_sq (traj.getD t []) markov_state))))

/-- Validity of one stage model, as the data model (§3) guarantees after
setup: at least one outcome, and a declared measure has one entry per
outcome and sums to 1. -/
def validStage (m : StageModel) : Prop :=
  0 < m.n_samples ∧
    ∀ p, m.probability = some p → p.length = m.n_samples ∧ p.sum = 1

/-- Validity of the per-Markov-state models of one stage: enough models for
the declared state count, every model valid, and a stage-wide common
outcome count (§3: StageOutcomeSet is per stage). -/
def validMarkovStage (ms : List StageModel) (nk : Nat) : Prop :=
  nk ≤ ms.length ∧ 0 < nk ∧
    ∀ m ∈ ms, validStage m ∧ m.n_samples = (ms.getD 0 dfltModel).n_samples

/-- Row-stochastic Markov chain shape: stochasticChain prev Ps ns holds
when the matrices Ps, entered with prev possible previous states, have
state counts ns: each matrix has one row per previous state, and each row
has one column per next state and sums to 1. -/
def stochasticChain : Nat → List (List (List ℚ)) → List Nat → Prop
  | _, [], [] => True
  | prev, P :: Ps, n :: ns =>
      P.length = prev ∧ (∀ row ∈ P, row.length = n ∧ row.sum = 1) ∧
        stochasticChain n Ps ns
  | _, _, _ => False

/-- Probability of a Markov-state tail given the current state k: the
product of the transition probabilities along the chain. -/
def transFrom (k : Nat) : List (List (List ℚ)) → List Nat → ℚ
  | P :: Ps, s0 :: ss => ((P.getD k []).getD s0 0) * transFrom s0 Ps ss
  | _, _ => 1

/-- Concrete two-stage stage-wise independent example program: a
deterministic first stage and two equally likely outcomes at stage 1. -/
def exIndepModels : List StageModel := [⟨1, none⟩, ⟨2, none⟩]

/-- Concrete three-stage Markov chain example (§8 of the spec): one Markov
state at stage 0, two at stages 1 and 2, each stage deterministic in its
independent component. -/
def exMarkovModels : List (List StageModel) :=
  [[⟨1, none⟩], [⟨1, none⟩, ⟨1, none⟩], [⟨1, none⟩, ⟨1, none⟩]]

/-- Markov-state counts of the example chain. -/
def exnM : List Nat := [1, 2, 2]

/-- Transition matrices of the example chain. -/
def extm : List (List (List ℚ)) :=
  [[[1]], [[3/10, 7/10]], [[6/10, 4/10], [2/10, 8/10]]]

lemma sum_flatMap {α : Type} (l : List α) (f : α → List ℚ) :
    (l.flatMap f).sum = (l.map (fun a => (f a).sum)).sum := by
  rw [List.flatMap_def, List.sum_flatten, List.map_map]
  rfl

lemma listProd_nil {α : Type} : listProd ([] : List (List α)) = [[]] := rfl

lemma listProd_cons {α : Type} (l : List α) (ls : List (List α)) :
    listProd (l :: ls) = l.flatMap (fun a => (listProd ls).map (fun p => a :: p)) := rfl

lemma length_listProd {α : Type} (ls : List (List α)) :
    (listProd ls).length = (ls.map List.length).prod := by
  induction ls with
  | nil => rfl
  | cons l ls ih =>
      rw [listProd_cons, List.length_flatMap]
      have hconst : (List.length ∘ fun a => (listProd ls).map (fun p => a :: p))
          = fun _ : α => (listProd ls).length := by
        funext a
        simp
      rw [hconst, List.map_const', List.sum_replicate, smul_eq_mul, ih,
        List.map_cons, List.prod_cons]

lemma nodup_listProd {α : Type} (ls : List (List α)) (h : ∀ l ∈ ls, l.Nodup) :
    (listProd ls).Nodup := by
  induction ls with
  | nil => simp [listProd_nil]
  | cons l ls ih =>
      rw [listProd_cons]
      refine List.nodup_flatMap.2 ⟨?_, ?_⟩
      · intro a _
        exact (ih (fun x hx => h x (List.mem_cons_of_mem _ hx))).map
          (fun p q hpq => by injection hpq)
      · have hl : l.Nodup := h l (List.mem_cons_self l ls)
        refine hl.imp ?_
        intro a b hab
        simp only [Function.onFun]
        rw [List.disjoint_left]
        rintro x hx1 hx2
        rcases List.mem_map.1 hx1 with ⟨p, _, rfl⟩
        rcases List.mem_map.1 hx2 with ⟨q, _, heq⟩
        exact hab (by injection heq.symm)

lemma sum_map_prod_listProd (ls : List (List ℚ)) :
    ((listProd ls).map List.prod).sum = (ls.map List.sum).prod := by
  induction ls with
  | nil => simp [listProd_nil]
  | cons l ls ih =>
      rw [listProd_cons, List.map_flatMap, sum_flatMap]
      simp only [List.map_map, Function.comp, List.prod_cons, List.map_cons]
      have inner : ∀ a : ℚ,
          ((listProd ls).map (fun p => a * p.prod)).sum
            = a * ((listProd ls).map List.prod).sum := by
        intro a
        simpa using List.sum_map_mul_left (listProd ls) List.prod a
      calc (l.map (fun a => ((listProd ls).map (fun p => (a :: p).prod)).sum)).sum
          = (l.map (fun a => a * ((listProd ls).map List.prod).sum)).sum := by
            refine congrArg List.sum (List.map_congr_left ?_)
            intro a _
            simpa [List.prod_cons] using inner a
        _ = l.sum * ((listProd ls).map List.prod).sum := by
            simpa using List.sum_map_mul_right l id ((listProd ls).map List.prod).sum
        _ = l.sum * (ls.map List.sum).prod := by rw [ih]

lemma mem_listProd {α : Type} {ls : List (List α)} {p : List α} :
    p ∈ listProd ls ↔ List.Forall₂ (fun a l => a ∈ l) p ls := by
  induction ls generalizing p with
  | nil =>
      simp only [listProd_nil, List.mem_singleton]
      constructor
      · rintro rfl; exact List.Forall₂.nil
      · intro h; cases h; rfl
  | cons l ls ih =>
      rw [listProd_cons]
      simp only [List.mem_flatMap, List.mem_map]
      constructor
      · rintro ⟨a, ha, q, hq, rfl⟩
        exact List.Forall₂.cons ha (ih.1 hq)
      · intro h
        cases h with
        | cons ha hq => exact ⟨_, ha, _, ih.2 hq, rfl⟩

lemma length_of_mem_listProd {α : Type} {ls : List (List α)} {p : List α}
    (h : p ∈ listProd ls) : p.length = ls.length :=
  (mem_listProd.1 h).length_eq

lemma map_range_getD {α : Type} (l : List α) (d : α) :
    (List.range l.length).map (fun i => l.getD i d) = l := by
  induction l with
  | nil => rfl
  | cons a l ih =>
      rw [List.length_cons, List.range_succ_eq_map, List.map_cons, List.map_map]
      have hcomp : ((fun i => (a :: l).getD i d) ∘ Nat.succ) = fun i => l.getD i d := by
        funext i
        simp [List.getD_cons_succ]
      rw [hcomp, ih]
      rfl

lemma map_range_getD_take {α : Type} (l : List α) (d : α) :
    ∀ n, n ≤ l.length → (List.range n).map (fun i => l.getD i d) = l.take n := by
  induction l with
  | nil =>
      intro n hn
      have hz : n = 0 := Nat.le_zero.1 (by simpa using hn)
      subst hz
      rfl
  | cons a l ih =>
      intro n hn
      match n with
      | 0 => rfl
      | Nat.succ m =>
          rw [List.range_succ_eq_map, List.map_cons, List.map_map]
          have hcomp : ((fun i => (a :: l).getD i d) ∘ Nat.succ)
              = fun i => l.getD i d := by
            funext i
            simp [List.getD_cons_succ]
          rw [hcomp, ih m (by simpa using hn)]
          rfl

lemma sum_pairProd {α β : Type} (l1 : List α) (l2 : List β) (f : α × β → ℚ) :
    ((pairProd l1 l2).map f).sum
      = (l1.map (fun a => (l2.map (fun b => f (a, b))).sum)).sum := by
  rw [pairProd, List.map_flatMap, sum_flatMap]
  simp only [List.map_map]
  rfl

lemma length_pairProd {α β : Type} (l1 : List α) (l2 : List β) :
    (pairProd l1 l2).length = l1.length * l2.length := by
  rw [pairProd, List.length_flatMap]
  have hconst : (List.length ∘ fun a : α => l2.map (fun b => (a, b)))
      = fun _ : α => l2.length := by
    funext a
    simp
  rw [hconst, List.map_const', List.sum_replicate, smul_eq_mul, mul_comm]

lemma nodup_pairProd {α β : Type} (l1 : List α) (l2 : List β)
    (h1 : l1.Nodup) (h2 : l2.Nodup) : (pairProd l1 l2).Nodup := by
  rw [pairProd]
  refine List.nodup_flatMap.2 ⟨?_, ?_⟩
  · intro a _
    exact h2.map (fun p q hpq => by injection hpq)
  · refine h1.imp ?_
    intro a b hab
    simp only [Function.onFun]
    rw [List.disjoint_left]
    rintro x hx1 hx2
    rcases List.mem_map.1 hx1 with ⟨p, _, rfl⟩
    rcases List.mem_map.1 hx2 with ⟨q, _, heq⟩
    exact hab (by injection heq.symm)

lemma sum_map_swap {α β : Type} (A : List α) (B : List β) (f : α → β → ℚ) :
    (A.map (fun a => (B.map (fun b => f a b)).sum)).sum
      = (B.map (fun b => (A.map (fun a => f a b)).sum)).sum := by
  induction A with
  | nil => simp
  | cons a A ih =>
      simp only [List.map_cons, List.sum_cons, ih]
      rw [← List.sum_map_add]

lemma getD_replicate_of_lt {α : Type} (n i : Nat) (a d : α) (h : i < n) :
    (List.replicate n a).getD i d = a := by
  have hl : i < (List.replicate n a).length := by simpa using h
  rw [List.getD_eq_getElem _ _ hl]
  exact List.getElem_replicate a hl

lemma sum_uniformProb (n : Nat) (h : 0 < n) : (uniformProb n).sum = 1 := by
  have hn : (n : ℚ) ≠ 0 := Nat.cast_ne_zero.2 h.ne'
  rw [uniformProb, List.sum_replicate, nsmul_eq_mul, one_div, mul_inv_cancel₀ hn]

lemma map_range_getD_comp {α β : Type} (l : List α) (d : α) (f : α → β) :
    (List.range l.length).map (fun i => f (l.getD i d)) = l.map f := by
  conv_rhs => rw [← map_range_getD l d]
  rw [List.map_map]
  rfl

lemma getD_map_range {α : Type} (n t : Nat) (f : Nat → α) (d : α) (h : t < n) :
    ((List.range n).map f).getD t d = f t := by
  have hl : t < ((List.range n).map f).length := by simpa using h
  rw [List.getD_eq_getElem _ _ hl]
  simp

lemma flatMap_range_getD {α β : Type} (l : List α) (d : α) (g : α → List β) :
    (List.range l.length).flatMap (fun i => g (l.getD i d)) = l.flatMap g := by
  conv_rhs => rw [← map_range_getD l d]
  rw [List.flatMap_map]

lemma listProd_lookup (ps : List (List ℚ)) :
    (listProd (ps.map (fun p => List.range p.length))).map
      (fun idxs => List.zipWith (fun p i => p.getD i 0) ps idxs)
      = listProd ps := by
  induction ps with
  | nil => rfl
  | cons p ps ih =>
      rw [List.map_cons, listProd_cons, List.map_flatMap]
      calc (List.range p.length).flatMap (fun i =>
              ((listProd (ps.map (fun q => List.range q.length))).map
                (fun idxs => i :: idxs)).map
                (fun idxs => List.zipWith (fun q j => q.getD j 0) (p :: ps) idxs))
          = (List.range p.length).flatMap (fun i =>
              ((listProd (ps.map (fun q => List.range q.length))).map
                (fun idxs => List.zipWith (fun q j => q.getD j 0) ps idxs)).map
                (fun vals => p.getD i 0 :: vals)) := by
            refine congrArg _ (funext (fun i => ?_))
            rw [List.map_map, List.map_map]
            rfl
        _ = (List.range p.length).flatMap (fun i =>
              (listProd ps).map (fun vals => p.getD i 0 :: vals)) := by
            rw [ih]
        _ = p.flatMap (fun a => (listProd ps).map (fun vals => a :: vals)) :=
            flatMap_range_getD p 0 (fun a => (listProd ps).map (fun vals => a :: vals))
        _ = listProd (p :: ps) := (listProd_cons p ps).symm

lemma range_getD_eq_zipWith (ps : List (List ℚ)) :
    ∀ idxs : List Nat, idxs.length = ps.length →
      (List.range idxs.length).map (fun t => (ps.getD t []).getD (idxs.getD t 0) 0)
        = List.zipWith (fun p i => p.getD i 0) ps idxs := by
  induction ps with
  | nil =>
      intro idxs h
      have : idxs = [] := List.length_eq_zero.1 h
      subst this
      rfl
  | cons p ps ih =>
      intro idxs h
      match idxs with
      | i :: is =>
          rw [List.length_cons, List.range_succ_eq_map, List.map_cons, List.map_map]
          have hcomp : ((fun t => (((p :: ps).getD t []).getD ((i :: is).getD t 0) 0))
                ∘ Nat.succ)
              = fun t => (ps.getD t []).getD (is.getD t 0) 0 := by
            funext t
            simp [List.getD_cons_succ]
          rw [hcomp, ih is (by simpa using h)]
          rfl

lemma sum_weights_over_listProd (ps : List (List ℚ)) (hs : ∀ p ∈ ps, p.sum = 1) :
    ((listProd (ps.map (fun p => List.range p.length))).map
       (fun idxs =>
         ((List.range idxs.length).map
           (fun t => (ps.getD t []).getD (idxs.getD t 0) 0)).prod)).sum = 1 := by
  have hlen : ∀ idxs ∈ listProd (ps.map (fun p => List.range p.length)),
      idxs.length = ps.length := by
    intro idxs hm
    rw [length_of_mem_listProd hm, List.length_map]
  have h1 : (listProd (ps.map (fun p => List.range p.length))).map
        (fun idxs =>
          ((List.range idxs.length).map
            (fun t => (ps.getD t []).getD (idxs.getD t 0) 0)).prod)
      = (listProd (ps.map (fun p => List.range p.length))).map
        (fun idxs => (List.zipWith (fun p i => p.getD i 0) ps idxs).prod) := by
    refine List.map_congr_left ?_
    intro idxs hm
    rw [range_getD_eq_zipWith ps idxs (hlen idxs hm)]
  rw [h1]
  have h2 : (listProd (ps.map (fun p => List.range p.length))).map
        (fun idxs => (List.zipWith (fun p i => p.getD i 0) ps idxs).prod)
      = ((listProd (ps.map (fun p => List.range p.length))).map
          (fun idxs => List.zipWith (fun p i => p.getD i 0) ps idxs)).map
            List.prod := by
    rw [List.map_map]
    rfl
  rw [h2, listProd_lookup, sum_map_prod_listProd]
  refine List.prod_eq_one ?_
  intro x hx
  rcases List.mem_map.1 hx with ⟨p, hp, rfl⟩
  exact hs p hp

lemma getD_mem_of_lt {α : Type} (l : List α) (k : Nat) (d : α) (h : k < l.length) :
    l.getD k d ∈ l := by
  rw [List.getD_eq_getElem _ _ h]
  exact List.getElem_mem h

lemma chain_sum :
    ∀ (Ps : List (List (List ℚ))) (ns : List Nat) (prev k : Nat),
      k < prev → stochasticChain prev Ps ns →
      ((listProd (ns.map List.range)).map (fun ss => transFrom k Ps ss)).sum = 1 := by
  intro Ps
  induction Ps with
  | nil =>
      intro ns prev k _ hchain
      match ns with
      | [] => simp [listProd_nil, transFrom]
      | _ :: _ => exact absurd hchain (by simp [stochasticChain])
  | cons P Ps ih =>
      intro ns prev k hk hchain
      match ns with
      | [] => exact absurd hchain (by simp [stochasticChain])
      | n :: ns =>
          obtain ⟨hlenP, hrows, hrest⟩ := hchain
          rw [List.map_cons, listProd_cons, List.map_flatMap, sum_flatMap]
          have hinner : ∀ i ∈ List.range n,
              (((listProd (ns.map List.range)).map (fun ss => i :: ss)).map
                 (fun ss => transFrom k (P :: Ps) ss)).sum
                = (P.getD k []).getD i 0 := by
            intro i hi
            rw [List.map_map]
            have hfun : ((fun ss => transFrom k (P :: Ps) ss) ∘ (fun ss => i :: ss))
                = fun ss => (P.getD k []).getD i 0 * transFrom i Ps ss := by
              funext ss
              rfl
            rw [hfun]
            rw [List.sum_map_mul_left]
            rw [ih ns n i (List.mem_range.1 hi) hrest, mul_one]
          rw [List.map_congr_left hinner]
          have hrow : P.getD k [] ∈ P := getD_mem_of_lt P k [] (by rw [hlenP]; exact hk)
          obtain ⟨hrl, hrs⟩ := hrows _ hrow
          calc ((List.range n).map (fun i => (P.getD k []).getD i 0)).sum
              = (P.getD k []).sum := by
                conv_lhs => rw [← hrl, map_range_getD]
            _ = 1 := hrs

lemma trans_range_eq_transFrom :
    ∀ (tms : List (List (List ℚ))) (k : Nat) (ss : List Nat),
      ss.length ≤ tms.length →
      ((List.range ss.length).map (fun i =>
         ((tms.getD i []).getD ((k :: ss).getD i 0) []).getD (ss.getD i 0) 0)).prod
        = transFrom k tms ss := by
  intro tms k ss
  induction ss generalizing k tms with
  | nil =>
      intro _
      simp [transFrom]
  | cons s0 ss ih =>
      intro hlen
      match tms with
      | P :: Ps =>
          rw [List.length_cons, List.range_succ_eq_map, List.map_cons, List.map_map]
          have hcomp : ((fun i =>
                (((P :: Ps).getD i []).getD ((k :: s0 :: ss).getD i 0) []).getD
                  ((s0 :: ss).getD i 0) 0) ∘ Nat.succ)
              = fun i =>
                ((Ps.getD i []).getD ((s0 :: ss).getD i 0) []).getD (ss.getD i 0) 0 := by
            funext i
            simp [List.getD_cons_succ]
          rw [hcomp, List.prod_cons, ih Ps s0 (by simpa using hlen)]
          rfl

lemma map_range_getD_comp' {α β : Type} (l : List α) (d : α) (f : α → β)
    (n : Nat) (h : n = l.length) :
    (List.range n).map (fun i => f (l.getD i d)) = l.map f := by
  subst h
  exact map_range_getD_comp l d f

lemma getD_map {α β : Type} (l : List α) (f : α → β) (t : Nat) (d : β) (d' : α)
    (h : t < l.length) :
    (l.map f).getD t d = f (l.getD t d') := by
  rw [List.getD_eq_getElem _ _ (by simpa using h), List.getD_eq_getElem _ _ h]
  simp

lemma forall₂_getD {α β : Type} {R : α → β → Prop} :
    ∀ {l1 : List α} {l2 : List β}, List.Forall₂ R l1 l2 →
      ∀ i (d1 : α) (d2 : β), i < l1.length → R (l1.getD i d1) (l2.getD i d2) := by
  intro l1 l2 h
  induction h with
  | nil => intro i d1 d2 hi; exact absurd hi (by simp)
  | cons hR _ ih =>
      intro i d1 d2 hi
      match i with
      | 0 => exact hR
      | Nat.succ j => exact ih j d1 d2 (by simpa using hi)

lemma stochasticChain_length :
    ∀ (Ps : List (List (List ℚ))) (ns : List Nat) (prev : Nat),
      stochasticChain prev Ps ns → Ps.length = ns.length := by
  intro Ps
  induction Ps with
  | nil =>
      intro ns prev h
      match ns with
      | [] => rfl
      | _ :: _ => exact absurd h (by simp [stochasticChain])
  | cons P Ps ih =>
      intro ns prev h
      match ns with
      | [] => exact absurd h (by simp [stochasticChain])
      | n :: ns => simpa using ih ns n h.2.2

lemma length_probOf (m : StageModel) (h : validStage m) :
    (m.probability.getD (uniformProb m.n_samples)).length = m.n_samples := by
  cases hp : m.probability with
  | none => simp [uniformProb]
  | some p => simpa using (h.2 p hp).1

lemma sum_probOf (m : StageModel) (h : validStage m) :
    (m.probability.getD (uniformProb m.n_samples)).sum = 1 := by
  cases hp : m.probability with
  | none => simpa using sum_uniformProb m.n_samples h.1
  | some p => simpa using (h.2 p hp).2

lemma enumerate_indep_eq (models : List StageModel) (T : Nat)
    (hT : T + 1 = models.length) :
    enumerate_sample_paths (ModelData.indep models) T
      = ((models.map (fun m => m.n_samples)).prod,
         (listProd (models.map (fun m => List.range m.n_samples))).map SPath.ind) := by
  simp only [enumerate_sample_paths]
  rw [map_range_getD_comp' models dfltModel (fun m => m.n_samples) (T + 1) hT,
    map_range_getD_comp' models dfltModel (fun m => List.range m.n_samples) (T + 1) hT]

lemma enumerate_markov_eq (models : List (List StageModel)) (nM : List Nat)
    (tm : List (List (List ℚ))) (T : Nat)
    (hTm : T + 1 = models.length) (hTn : T + 1 = nM.length) :
    enumerate_sample_paths (ModelData.markov models nM tm) T
      = (nM.prod * (models.map (fun ms => (ms.getD 0 dfltModel).n_samples)).prod,
         (pairProd
            (listProd (models.map (fun ms => List.range (ms.getD 0 dfltModel).n_samples)))
            (listProd (nM.map List.range))).map (fun p => SPath.pair p.1 p.2)) := by
  simp only [enumerate_sample_paths]
  rw [map_range_getD_comp' models [] (fun ms => (ms.getD 0 dfltModel).n_samples) (T + 1) hTm,
    map_range_getD_comp' models [] (fun ms => List.range (ms.getD 0 dfltModel).n_samples)
      (T + 1) hTm,
    map_range_getD_comp' nM 0 List.range (T + 1) hTn]

lemma weight_indep_eval (models : List StageModel) (path : List Nat) :
    compute_weight_sample_path (ModelData.indep models) (SPath.ind path)
      = ((List.range path.length).map
          (fun t => ((set_up_probability_indep models).getD t []).getD
            (path.getD t 0) 0)).prod := rfl

lemma ranges_eq_prob_ranges (models : List StageModel)
    (hv : ∀ m ∈ models, validStage m) :
    models.map (fun m => List.range m.n_samples)
      = (set_up_probability_indep models).map (fun p => List.range p.length) := by
  rw [set_up_probability_indep, List.map_map]
  refine List.map_congr_left ?_
  intro m hm
  simp only [Function.comp]
  rw [length_probOf m (hv m hm)]

lemma sum_weights_indep_models (models : List StageModel)
    (hv : ∀ m ∈ models, validStage m) :
    ((listProd (models.map (fun m => List.range m.n_samples))).map
       (fun path => compute_weight_sample_path (ModelData.indep models)
         (SPath.ind path))).sum = 1 := by
  rw [ranges_eq_prob_ranges models hv]
  have hsums : ∀ p ∈ set_up_probability_indep models, p.sum = 1 := by
    intro p hp
    rcases List.mem_map.1 hp with ⟨m, hm, rfl⟩
    exact sum_probOf m (hv m hm)
  have := sum_weights_over_listProd (set_up_probability_indep models) hsums
  rw [← this]
  rfl

lemma sum_weights_markov_models (m0 : List StageModel) (mr : List (List StageModel))
    (nMr : List Nat) (TM0 : List (List ℚ)) (tms : List (List (List ℚ)))
    (hv : List.Forall₂ validMarkovStage (m0 :: mr) (1 :: nMr))
    (hchain : stochasticChain 1 tms nMr) :
    ((pairProd
        (listProd ((m0 :: mr).map
          (fun ms => List.range (ms.getD 0 dfltModel).n_samples)))
        (listProd ((1 :: nMr).map List.range))).map
      (fun p => compute_weight_sample_path
        (ModelData.markov (m0 :: mr) (1 :: nMr) (TM0 :: tms))
        (SPath.pair p.1 p.2))).sum = 1 := by
  have hlen : tms.length = nMr.length := stochasticChain_length tms nMr 1 hchain
  set n := nMr.length + 1 with hn
  have hmodlen : (m0 :: mr).length = n := by
    have := hv.length_eq
    simp only [List.length_cons] at this
    simp only [List.length_cons, hn]
    omega
  set probM := set_up_probability_markov (m0 :: mr) with hprobM
  set oranges := (m0 :: mr).map (fun ms => List.range (ms.getD 0 dfltModel).n_samples)
    with horanges
  set sranges := (1 :: nMr).map List.range with hsranges
  have holen : ∀ o ∈ listProd oranges, o.length = n := by
    intro o ho
    rw [length_of_mem_listProd ho, horanges, List.length_map, hmodlen]
  have hslen : ∀ s ∈ listProd sranges, s.length = n := by
    intro s hs
    rw [length_of_mem_listProd hs, hsranges, List.length_map]
    simp [hn]
  have hsmem : ∀ s ∈ listProd sranges, ∀ t < n, s.getD t 0 < (1 :: nMr).getD t 0 := by
    intro s hs t ht
    have hf := mem_listProd.1 hs
    have ht' : t < s.length := by rw [hslen s hs]; exact ht
    have := forall₂_getD hf t 0 [] ht'
    rw [hsranges] at this
    have htlen : t < (1 :: nMr).length := by simpa [hn] using ht
    rw [getD_map (1 :: nMr) List.range t [] 0 htlen] at this
    exact List.mem_range.1 this
  -- the per-Markov-state value lists selected by a state path s
  have hcond : ∀ s ∈ listProd sranges,
      ((listProd oranges).map (fun o =>
        ((List.range o.length).map (fun t =>
          ((probM.getD t []).getD (s.getD t 0) []).getD (o.getD t 0) 0)).prod)).sum
        = 1 := by
    intro s hs
    set qs := (List.range n).map (fun t => (probM.getD t []).getD (s.getD t 0) [])
      with hqs
    have hqlen : qs.length = n := by rw [hqs]; simp
    -- pointwise facts at each stage t < n
    have hstage : ∀ t < n,
        (probM.getD t []).getD (s.getD t 0) []
          = ((((m0 :: mr).getD t []).getD (s.getD t 0) dfltModel).probability.getD
              (uniformProb (((m0 :: mr).getD t []).getD (s.getD t 0) dfltModel).n_samples))
        ∧ validStage (((m0 :: mr).getD t []).getD (s.getD t 0) dfltModel)
        ∧ (((m0 :: mr).getD t []).getD (s.getD t 0) dfltModel).n_samples
            = (((m0 :: mr).getD t []).getD 0 dfltModel).n_samples := by
      intro t ht
      have htm : t < (m0 :: mr).length := by rw [hmodlen]; exact ht
      have hvt := forall₂_getD hv t [] 0 htm
      obtain ⟨hnk, hnkpos, hall⟩ := hvt
      have hst : s.getD t 0 < ((m0 :: mr).getD t []).length :=
        lt_of_lt_of_le (hsmem s hs t ht) hnk
      have hm_mem : ((m0 :: mr).getD t []).getD (s.getD t 0) dfltModel
          ∈ (m0 :: mr).getD t [] := getD_mem_of_lt _ _ _ hst
      have h1 : probM.getD t [] = ((m0 :: mr).getD t []).map
          (fun m => m.probability.getD (uniformProb m.n_samples)) := by
        rw [hprobM, set_up_probability_markov]
        exact getD_map (m0 :: mr) _ t [] [] htm
      constructor
      · rw [h1]
        exact getD_map _ _ _ [] dfltModel hst
      · exact ⟨(hall _ hm_mem).1, (hall _ hm_mem).2⟩
    -- oranges is the list of index ranges of the value lists qs
    have hor : oranges = qs.map (fun q => List.range q.length) := by
      rw [hqs, List.map_map, horanges]
      rw [← map_range_getD_comp' (m0 :: mr) []
        (fun ms => List.range (ms.getD 0 dfltModel).n_samples) n hmodlen.symm]
      refine List.map_congr_left ?_
      intro t htr
      have ht := List.mem_range.1 htr
      obtain ⟨he, hvs, hsame⟩ := hstage t ht
      simp only [Function.comp]
      rw [he, length_probOf _ hvs, hsame]
    have hqsum : ∀ q ∈ qs, q.sum = 1 := by
      intro q hq
      rw [hqs] at hq
      rcases List.mem_map.1 hq with ⟨t, htr, rfl⟩
      have ht := List.mem_range.1 htr
      obtain ⟨he, hvs, _⟩ := hstage t ht
      rw [he]
      exact sum_probOf _ hvs
    have hmain := sum_weights_over_listProd qs hqsum
    rw [← hor] at hmain
    rw [← hmain]
    refine congrArg List.sum (List.map_congr_left ?_)
    intro o ho
    refine congrArg List.prod (List.map_congr_left ?_)
    intro t htr
    have ht : t < n := by
      have := List.mem_range.1 htr
      rw [holen o ho] at this
      exact this
    rw [hqs, getD_map_range n t _ [] ht]
  -- step 1: expand the pair enumeration and swap the two sums
  rw [sum_pairProd, sum_map_swap]
  -- step 2: the inner sum over outcome paths factors through the
  -- transition product
  have hinner : ∀ s ∈ listProd sranges,
      ((listProd oranges).map (fun o =>
        compute_weight_sample_path
          (ModelData.markov (m0 :: mr) (1 :: nMr) (TM0 :: tms))
          (SPath.pair o s))).sum
      = ((List.range (n - 1)).map (fun i =>
          (((TM0 :: tms).getD (i + 1) []).getD (s.getD i 0) []).getD
            (s.getD (i + 1) 0) 0)).prod := by
    intro s hs
    have hstep : (listProd oranges).map (fun o =>
        compute_weight_sample_path
          (ModelData.markov (m0 :: mr) (1 :: nMr) (TM0 :: tms))
          (SPath.pair o s))
        = (listProd oranges).map (fun o =>
            (((List.range (n - 1)).map (fun i =>
              (((TM0 :: tms).getD (i + 1) []).getD (s.getD i 0) []).getD
                (s.getD (i + 1) 0) 0)).prod)
            * (((List.range o.length).map (fun t =>
              ((probM.getD t []).getD (s.getD t 0) []).getD (o.getD t 0) 0)).prod)) := by
      refine List.map_congr_left ?_
      intro o ho
      simp only [compute_weight_sample_path]
      rw [holen o ho]
    rw [hstep, List.sum_map_mul_left, hcond s hs, mul_one]
  rw [List.map_congr_left hinner]
  -- step 3: the sum of the transition products over all Markov-state paths
  -- is 1, by the row-stochasticity of the chain
  have hsr : sranges = List.range 1 :: nMr.map List.range := by
    rw [hsranges, List.map_cons]
  rw [hsr, listProd_cons]
  have hflat : (List.range 1).flatMap
      (fun a => (listProd (nMr.map List.range)).map (fun p => a :: p))
      = (listProd (nMr.map List.range)).map (fun p => 0 :: p) := by
    have h01 : List.range 1 = [0] := rfl
    rw [h01]
    simp
  rw [hflat, List.map_map]
  have htrans : ∀ ss ∈ listProd (nMr.map List.range),
      (((List.range (n - 1)).map (fun i =>
        (((TM0 :: tms).getD (i + 1) []).getD ((0 :: ss).getD i 0) []).getD
          ((0 :: ss).getD (i + 1) 0) 0)).prod)
      = transFrom 0 tms ss := by
    intro ss hss
    have hsslen : ss.length = nMr.length := by
      rw [length_of_mem_listProd hss, List.length_map]
    have hfun : (fun i =>
        (((TM0 :: tms).getD (i + 1) []).getD ((0 :: ss).getD i 0) []).getD
          ((0 :: ss).getD (i + 1) 0) 0)
        = fun i => ((tms.getD i []).getD ((0 :: ss).getD i 0) []).getD
            (ss.getD i 0) 0 := by
      funext i
      rw [List.getD_cons_succ, List.getD_cons_succ]
    have hnm : n - 1 = ss.length := by rw [hsslen, hn]; rfl
    rw [hnm, hfun]
    exact trans_range_eq_transFrom tms 0 ss (by rw [hsslen, hlen])
  have hcomp2 : ((fun s => (((List.range (n - 1)).map (fun i =>
      (((TM0 :: tms).getD (i + 1) []).getD (s.getD i 0) []).getD
        (s.getD (i + 1) 0) 0)).prod)) ∘ (fun p => 0 :: p))
      = fun ss => (((List.range (n - 1)).map (fun i =>
          (((TM0 :: tms).getD (i + 1) []).getD ((0 :: ss).getD i 0) []).getD
            ((0 :: ss).getD (i + 1) 0) 0)).prod) := by
    funext ss
    rfl
  rw [hcomp2, List.map_congr_left htrans]
  exact chain_sum tms nMr 1 0 Nat.one_pos hchain

lemma exists_getD_of_mem {α : Type} {l : List α} {z : α} (d : α) (h : z ∈ l) :
    ∃ j, j < l.length ∧ l.getD j d = z := by
  rcases List.mem_iff_getElem.1 h with ⟨j, hj, hz⟩
  exact ⟨j, hj, by rw [List.getD_eq_getElem _ _ hj]; exact hz⟩

lemma argminFirst_lt_length : ∀ l : List ℚ, l ≠ [] → argminFirst l < l.length := by
  intro l
  induction l with
  | nil => intro h; exact absurd rfl h
  | cons x xs ih =>
      intro _
      rw [argminFirst]
      by_cases hall : xs.all (fun z => decide (x ≤ z)) = true
      · rw [if_pos hall]
        simp
      · rw [if_neg hall]
        have hxs : xs ≠ [] := by
          intro hxe
          subst hxe
          exact hall rfl
        have := ih hxs
        simp only [List.length_cons]
        omega

lemma argminFirst_le : ∀ (l : List ℚ) (k : Nat), k < l.length →
    l.getD (argminFirst l) 0 ≤ l.getD k 0 := by
  intro l
  induction l with
  | nil => intro k hk; exact absurd hk (by simp)
  | cons x xs ih =>
      intro k hk
      rw [argminFirst]
      by_cases hall : xs.all (fun z => decide (x ≤ z)) = true
      · rw [if_pos hall]
        match k with
        | 0 => exact le_refl _
        | Nat.succ j =>
            have hj : j < xs.length := by simpa using hk
            have hmem : xs.getD j 0 ∈ xs := getD_mem_of_lt xs j 0 hj
            have := List.all_eq_true.1 hall _ hmem
            simpa using this
      · rw [if_neg hall]
        have hex : ∃ z ∈ xs, z < x := by
          by_contra hno
          push_neg at hno
          exact hall (List.all_eq_true.2 (fun z hz => by
            simpa using (hno z hz)))
        rcases hex with ⟨z, hzmem, hzlt⟩
        rcases exists_getD_of_mem 0 hzmem with ⟨jz, hjz, hjzeq⟩
        match k with
        | 0 =>
            have h1 : xs.getD (argminFirst xs) 0 ≤ xs.getD jz 0 := ih jz hjz
            rw [List.getD_cons_succ, List.getD_cons_zero]
            calc xs.getD (argminFirst xs) 0 ≤ z := by rw [← hjzeq]; exact h1
              _ ≤ x := le_of_lt hzlt
        | Nat.succ j =>
            rw [List.getD_cons_succ, List.getD_cons_succ]
            exact ih j (by simpa using hk)

lemma argminFirst_first : ∀ (l : List ℚ) (k : Nat), k < argminFirst l →
    l.getD (argminFirst l) 0 < l.getD k 0 := by
  intro l
  induction l with
  | nil => intro k hk; simp [argminFirst] at hk
  | cons x xs ih =>
      intro k hk
      rw [argminFirst] at hk ⊢
      by_cases hall : xs.all (fun z => decide (x ≤ z)) = true
      · rw [if_pos hall] at hk
        exact absurd hk (by simp)
      · rw [if_neg hall] at hk ⊢
        have hex : ∃ z ∈ xs, z < x := by
          by_contra hno
          push_neg at hno
          exact hall (List.all_eq_true.2 (fun z hz => by
            simpa using (hno z hz)))
        rcases hex with ⟨z, hzmem, hzlt⟩
        rcases exists_getD_of_mem 0 hzmem with ⟨jz, hjz, hjzeq⟩
        match k with
        | 0 =>
            rw [List.getD_cons_succ, List.getD_cons_zero]
            calc xs.getD (argminFirst xs) 0 ≤ z := by
                  rw [← hjzeq]; exact argminFirst_le xs jz hjz
              _ < x := hzlt
        | Nat.succ j =>
            rw [List.getD_cons_succ, List.getD_cons_succ]
            exact ih j (by omega)

lemma argminFirst_eq_of_zero (l : List ℚ) (k : Nat) (hk : k < l.length)
    (hzero : l.getD k 0 = 0) (hnn : ∀ j, j < l.length → 0 ≤ l.getD j 0)
    (hprev : ∀ j, j < k → l.getD j 0 ≠ 0) : argminFirst l = k := by
  have hne : l ≠ [] := by
    intro he
    subst he
    exact absurd hk (by simp)
  have ha := argminFirst_lt_length l hne
  have hle : l.getD (argminFirst l) 0 ≤ 0 := by
    have := argminFirst_le l k hk
    rwa [hzero] at this
  have hge : 0 ≤ l.getD (argminFirst l) 0 := hnn _ ha
  have hargzero : l.getD (argminFirst l) 0 = 0 := le_antisymm hle hge
  rcases lt_trichotomy (argminFirst l) k with h | h | h
  · exact absurd hargzero (hprev _ h)
  · exact h
  · have := argminFirst_first l k h
    rw [hargzero, hzero] at this
    exact absurd this (lt_irrefl 0)

lemma dist_sq_nonneg : ∀ a b : List ℚ, 0 ≤ dist_sq a b := by
  intro a
  induction a with
  | nil => intro b; simp [dist_sq]
  | cons x xs ih =>
      intro b
      match b with
      | [] => simp [dist_sq]
      | y :: ys =>
          rw [dist_sq, List.zipWith_cons_cons, List.sum_cons]
          exact add_nonneg (mul_self_nonneg _) (ih ys)

lemma dist_sq_self : ∀ a : List ℚ, dist_sq a a = 0 := by
  intro a
  induction a with
  | nil => rfl
  | cons x xs ih =>
      rw [dist_sq, List.zipWith_cons_cons, List.sum_cons]
      rw [sub_self]
      simp only [dist_sq] at ih
      simp [ih]

lemma dist_sq_eq_zero_iff : ∀ (a b : List ℚ), a.length = b.length →
    (dist_sq a b = 0 ↔ a = b) := by
  intro a
  induction a with
  | nil =>
      intro b hb
      have : b = [] := (List.length_eq_zero.1 hb.symm)
      subst this
      simp [dist_sq]
  | cons x xs ih =>
      intro b hb
      match b with
      | y :: ys =>
          rw [dist_sq, List.zipWith_cons_cons, List.sum_cons]
          have h1 : 0 ≤ (x - y) * (x - y) := mul_self_nonneg _
          have h2 : 0 ≤ (List.zipWith (fun u v => (u - v) * (u - v)) xs ys).sum := by
            have := dist_sq_nonneg xs ys
            rwa [dist_sq] at this
          rw [add_eq_zero_iff_of_nonneg h1 h2]
          constructor
          · rintro ⟨hxy, hrest⟩
            have hx : x = y := by
              have := mul_self_eq_zero.1 hxy
              linarith [sub_eq_zero.1 this]
            have hxs : xs = ys := by
              have hlen : xs.length = ys.length := by simpa using hb
              exact (ih ys hlen).1 (by rwa [dist_sq])
            rw [hx, hxs]
          · intro he
            injection he with h3 h4
            subst h3
            subst h4
            exact ⟨by rw [sub_self]; ring, by
              have := dist_sq_self xs
              rwa [dist_sq] at this⟩

lemma compute_gap_epv_eq (sense : Int) (db e : ℚ) (pv : List ℚ) :
    compute_gap sense db none (some e) pv = Except.ok (compute_gap_epv db e) := rfl

lemma compute_gap_ok_of_CI (sense : Int) (db : ℚ) (ci : ℚ × ℚ) (epv : Option ℚ)
    (pv : List ℚ) :
    ∃ g, compute_gap sense db (some ci) epv pv = Except.ok g := by
  by_cases hs : sense = 1
  · by_cases hdb : db = 0
    · exact ⟨GapResult.nan,
        by simp [compute_gap, compute_gap_try, pydiv, hs, hdb, Except.map]⟩
    · exact ⟨GapResult.val |(ci.2 - db) / db|,
        by simp [compute_gap, compute_gap_try, pydiv, hs, hdb, Except.map]⟩
  · by_cases hdb : db = 0
    · exact ⟨GapResult.nan,
        by simp [compute_gap, compute_gap_try, pydiv, hs, hdb, Except.map]⟩
    · exact ⟨GapResult.val |(db - ci.1) / db|,
        by simp [compute_gap, compute_gap_try, pydiv, hs, hdb, Except.map]⟩

lemma compute_gap_ok_of_pv (sense : Int) (db : ℚ) (x : ℚ) (xs : List ℚ) :
    ∃ g, compute_gap sense db none none (x :: xs) = Except.ok g := by
  by_cases hdb : db = 0
  · exact ⟨GapResult.nan,
      by simp [compute_gap, compute_gap_try, pydiv, list_getitem, hdb, Except.map]⟩
  · exact ⟨GapResult.val |(x - db) / db|,
      by simp [compute_gap, compute_gap_try, pydiv, list_getitem, hdb, Except.map]⟩

/-- C2 counterexample: with db = 0 and an exact expected value present (the
state every successful exhaustive run produces), gap computation stores a
non-finite IEEE float, not the nan sentinel: self.epv is the numpy.float64
of numpy.dot, its division by zero does not raise, and the except clause
never fires. -/
theorem claim_C2_counterexample :
    compute_gap 1 0 none (some 1) [] = Except.ok GapResult.nonfinite
    ∧ compute_gap 1 0 none (some 1) []
        ≠ (Except.ok GapResult.nan : Except PyErr GapResult) := by
  constructor
  · simp [compute_gap, compute_gap_try, compute_gap_epv, npdiv, np_abs]
  · simp [compute_gap, compute_gap_try, compute_gap_epv, npdiv, np_abs]

/-- C2 amended: with db = 0, gap computation never raises a
ZeroDivisionError to the caller; the CI branch and the nonempty per-path
fallback divide Python floats, catch the ZeroDivisionError and store the
nan sentinel, for every sense; the epv branch divides the numpy.float64
exact expected value, which silently yields a non-finite IEEE value stored
as the gap instead of the sentinel; and the per-path fallback on an empty
per-path list raises an uncaught IndexError before any division. -/
theorem claim_C2_gap_db_zero (sense : Int) (CI : Option (ℚ × ℚ))
    (epv : Option ℚ) (pv : List ℚ) :
    (∀ ci, CI = some ci →
        compute_gap sense 0 CI epv pv = Except.ok GapResult.nan)
    ∧ (∀ e, CI = none → epv = some e →
        compute_gap sense 0 CI epv pv = Except.ok GapResult.nonfinite)
    ∧ (CI = none → epv = none → pv ≠ [] →
        compute_gap sense 0 CI epv pv = Except.ok GapResult.nan)
    ∧ (CI = none → epv = none → pv = [] →
        compute_gap sense 0 CI epv pv = Except.error PyErr.indexError) := by
  refine ⟨?_, ?_, ?_, ?_⟩
  · rintro ci rfl
    by_cases hs : sense = 1 <;>
      simp [compute_gap, compute_gap_try, pydiv, hs, Except.map]
  · rintro e rfl rfl
    simp [compute_gap, compute_gap_try, compute_gap_epv, npdiv, np_abs]
  · rintro rfl rfl hne
    match pv, hne with
    | x :: xs, _ =>
        simp [compute_gap, compute_gap_try, pydiv, list_getitem, Except.map]
  · rintro rfl rfl rfl
    simp [compute_gap, compute_gap_try, list_getitem]

/-- Witness for the amended C2: the four db = 0 behaviors at concrete
inputs. -/
theorem claim_C2_witness :
    compute_gap 1 0 (some (2, 3)) none [] = Except.ok GapResult.nan
    ∧ compute_gap 1 0 none (some 1) [5] = Except.ok GapResult.nonfinite
    ∧ compute_gap 1 0 none none [5] = Except.ok GapResult.nan
    ∧ compute_gap 1 0 none none [] = Except.error PyErr.indexError :=
  ⟨(claim_C2_gap_db_zero 1 (some (2, 3)) none []).1 (2, 3) rfl,
   (claim_C2_gap_db_zero 1 none (some 1) [5]).2.1 1 rfl rfl,
   (claim_C2_gap_db_zero 1 none none [5]).2.2.1 rfl rfl (by simp),
   (claim_C2_gap_db_zero 1 none none []).2.2.2 rfl rfl rfl⟩

/-- C7: a run with more than one worker and any per-path querying (a
non-empty query list, a non-empty dual-query list, or stage-cost querying)
fails fast with the NotImplementedError guard (the spec's
UnsupportedCombinationError) before any sample path is simulated: the
external solver is invoked zero times. -/
theorem claim_C7_query_multiprocessing (M : ModelData) (T : Nat) (sense : Int)
    (db : ℚ) (forward : Nat → ℚ) (compute_CI : List ℚ → ℚ → ℚ × ℚ)
    (inp : RunInput) (hw : 1 < inp.n_processes)
    (hq : (∃ l, inp.query = some l ∧ l ≠ []) ∨
          (∃ l, inp.query_dual = some l ∧ l ≠ []) ∨
          inp.query_stage_cost = true) :
    eval_run M T sense db forward compute_CI inp
      = ⟨0, Except.error RunError.notImplemented⟩ := by
  unfold eval_run
  rw [if_pos]
  refine ⟨by omega, ?_⟩
  rcases hq with ⟨l, hl, _⟩ | ⟨l, hl, _⟩ | hc
  · exact Or.inl (by rw [hl]; rfl)
  · exact Or.inr (Or.inl (by rw [hl]; rfl))
  · exact Or.inr (Or.inr hc)

/-- Witness for C7 at a concrete input: two workers and a non-empty query
list give the guard error with zero solver calls. -/
theorem claim_C7_witness :
    eval_run (ModelData.indep [⟨1, none⟩]) 1 1 1 (fun j => (j : ℚ))
        (fun _ _ => (0, 0)) ⟨3, 95, some ["x"], none, false, 2⟩
      = ⟨0, Except.error RunError.notImplemented⟩ :=
  claim_C7_query_multiprocessing (ModelData.indep [⟨1, none⟩]) 1 1 1
    (fun j => (j : ℚ)) (fun _ _ => (0, 0)) ⟨3, 95, some ["x"], none, false, 2⟩
    (by norm_num) (Or.inl ⟨["x"], rfl, by simp⟩)

/-- C8: a run with exactly one simulation never produces a confidence
interval: whenever the run succeeds, the CI field of the result is none. -/
theorem claim_C8_single_simulation_no_CI (M : ModelData) (T : Nat)
    (sense : Int) (db : ℚ) (forward : Nat → ℚ)
    (compute_CI : List ℚ → ℚ → ℚ × ℚ) (inp : RunInput) (r : RunResult)
    (h1 : inp.n_simulations = 1)
    (h2 : (eval_run M T sense db forward compute_CI inp).result = Except.ok r) :
    r.CI = none := by
  by_cases hguard : inp.n_processes ≠ 1 ∧
      (inp.query.isSome ∨ inp.query_dual.isSome ∨ inp.query_stage_cost)
  · rw [eval_run, if_pos hguard] at h2
    exact absurd h2 (by simp)
  · rw [eval_run, if_neg hguard] at h2
    simp only [h1] at h2
    norm_num [compute_sample_path_idx, List.range_succ] at h2
    obtain ⟨g, hg⟩ := compute_gap_ok_of_pv sense db (forward 0) []
    rw [hg] at h2
    simp only [Except.ok.injEq] at h2
    rw [← h2]

/-- Witness for C8 at a concrete input. -/
theorem claim_C8_witness :
    (⟨[0], none, none, GapResult.nan⟩ : RunResult).CI = none :=
  claim_C8_single_simulation_no_CI (ModelData.indep [⟨1, none⟩]) 1 1 0
    (fun j => (j : ℚ)) (fun _ _ => (0, 0)) ⟨1, 95, none, none, false, 1⟩
    ⟨[0], none, none, GapResult.nan⟩ rfl
    (by norm_num [eval_run, compute_sample_path_idx, compute_gap,
      compute_gap_try, pydiv, list_getitem, List.range_succ, Except.map])

/-- C9: a worker in parallel evaluation builds its random state from the
seed list made of the fixed high-order component 2^32 - 1 and the index of
its first assigned sample path, and two runs over the same worker partition
therefore produce identical draws and identical per-path values. -/
theorem claim_C9_worker_seed {R : Type} (forward : R → Nat → ℚ)
    (randomStream : List Nat → R) (jobs jobs2 : List Nat)
    (hne : jobs ≠ []) (heq : jobs2 = jobs) :
    run_single_seeded forward randomStream jobs
      = jobs.map (fun j => (j, forward (randomStream [4294967295, jobs.headD 0]) j))
    ∧ run_single_seeded forward randomStream jobs2
        = run_single_seeded forward randomStream jobs := by
  subst heq
  exact ⟨by norm_num [run_single_seeded], rfl⟩

/-- Witness for C9 at a concrete partition. -/
theorem claim_C9_witness :
    run_single_seeded (fun (s : List Nat) (j : Nat) => ((s.headD 0 + j : Nat) : ℚ))
        (fun s => s) [2, 3]
      = [2, 3].map (fun j =>
          (j, ((([2 ^ 32 - 1, 2] : List Nat).headD 0 + j : Nat) : ℚ)))
    ∧ run_single_seeded (fun (s : List Nat) (j : Nat) => ((s.headD 0 + j : Nat) : ℚ))
        (fun s => s) [2, 3]
      = run_single_seeded (fun (s : List Nat) (j : Nat) => ((s.headD 0 + j : Nat) : ℚ))
        (fun s => s) [2, 3] := by
  have h := claim_C9_worker_seed
    (fun (s : List Nat) (j : Nat) => ((s.headD 0 + j : Nat) : ℚ))
    (fun s => s) [2, 3] [2, 3] (by simp) rfl
  exact ⟨by rw [h.1]; norm_num, h.2⟩

/-- C10: in continuous Markovian evaluation the matched Markov-state index
at stage 0 is 0 for every sample path: the zero-initialized index matrix is
only written for stages 1 .. T-1, so each row keeps 0 in position 0. -/
theorem claim_C10_stage0_zero (Markov_states : List (List (List ℚ))) (T : Nat)
    (markovian_samples : List (List (List ℚ))) (row : List Nat)
    (hrow : row ∈ compute_markovian_idx Markov_states T markovian_samples) :
    row.getD 0 0 = 0 := by
  rcases List.mem_map.1 hrow with ⟨traj, _, rfl⟩
  match T with
  | 0 => rfl
  | Nat.succ T' =>
      rw [getD_map_range (T' + 1) 0 _ 0 (Nat.succ_pos T')]
      rfl

/-- Witness for C10 at a concrete input: one trajectory, one discretized
state at stage 1; the matched row starts with 0. -/
theorem claim_C10_witness :
    (([0, 0] : List Nat)).getD 0 0 = 0 :=
  claim_C10_stage0_zero [[], [[0]]] 2 [[[5], [1]]] [0, 0] (by decide)

/-- C6: the Markov-State Matcher (a) is deterministic, (b) fills, for every
stage 1 <= t < T and every path j, the matrix entry with the first-occurrence
argmin of the squared Euclidean distances to the discretized states of
stage t, (c) that argmin index is in range, minimizes the squared distance,
and strictly beats every earlier index, and (d) a sample exactly equal to
MarkovState(t,k) is matched to index k when the state vectors of the stage
are pairwise distinct and of the sample's dimension. -/
theorem claim_C6_matcher :
    (∀ (MS : List (List (List ℚ))) (T : Nat) (s1 s2 : List (List (List ℚ))),
        s1 = s2 → compute_markovian_idx MS T s1 = compute_markovian_idx MS T s2)
    ∧ (∀ (MS : List (List (List ℚ))) (T : Nat)
          (samples : List (List (List ℚ))) (j t : Nat),
          j < samples.length → 1 ≤ t → t < T →
          ((compute_markovian_idx MS T samples).getD j []).getD t 0
            = argminFirst ((MS.getD t []).map
                (fun markov_state =>
                  dist_sq ((samples.getD j []).getD t []) markov_state)))
    ∧ (∀ (states : List (List ℚ)) (x : List ℚ), states ≠ [] →
          argminFirst (states.map (fun ms => dist_sq x ms)) < states.length
          ∧ (∀ k, k < states.length →
              dist_sq x (states.getD (argminFirst
                  (states.map (fun ms => dist_sq x ms))) [])
                ≤ dist_sq x (states.getD k []))
          ∧ (∀ k, k < argminFirst (states.map (fun ms => dist_sq x ms)) →
              dist_sq x (states.getD (argminFirst
                  (states.map (fun ms => dist_sq x ms))) [])
                < dist_sq x (states.getD k [])))
    ∧ (∀ (states : List (List ℚ)) (x : List ℚ) (k : Nat),
          k < states.length → x = states.getD k [] →
          (∀ st ∈ states, st.length = x.length) → states.Nodup →
          argminFirst (states.map (fun ms => dist_sq x ms)) = k) := by
  refine ⟨?_, ?_, ?_, ?_⟩
  · intro MS T s1 s2 h
    rw [h]
  · intro MS T samples j t hj ht1 htT
    rw [compute_markovian_idx,
      getD_map samples _ j [] [] hj,
      getD_map_range T t _ 0 htT,
      if_neg (by omega)]
  · intro states x hne
    have hmaplen : (states.map (fun ms => dist_sq x ms)).length = states.length := by
      simp
    have hmapne : states.map (fun ms => dist_sq x ms) ≠ [] := by
      simpa using hne
    have hlt := argminFirst_lt_length _ hmapne
    rw [hmaplen] at hlt
    refine ⟨hlt, ?_, ?_⟩
    · intro k hk
      have h1 := argminFirst_le (states.map (fun ms => dist_sq x ms)) k
        (by rw [hmaplen]; exact hk)
      rwa [getD_map states _ _ 0 [] hlt, getD_map states _ k 0 [] hk] at h1
    · intro k hk
      have hklt : k < states.length := lt_trans hk hlt
      have h1 := argminFirst_first (states.map (fun ms => dist_sq x ms)) k hk
      rwa [getD_map states _ _ 0 [] hlt, getD_map states _ k 0 [] hklt] at h1
  · intro states x k hk hx hdim hnodup
    refine argminFirst_eq_of_zero _ k (by simpa using hk) ?_ ?_ ?_
    · rw [getD_map states _ k 0 [] hk, ← hx, dist_sq_self]
    · intro j hj
      rw [List.length_map] at hj
      rw [getD_map states _ j 0 [] hj]
      exact dist_sq_nonneg _ _
    · intro j hj hzero
      have hjlt : j < states.length := lt_trans hj hk
      rw [getD_map states _ j 0 [] hjlt] at hzero
      have hjdim : (states.getD j []).length = x.length :=
        hdim _ (getD_mem_of_lt states j [] hjlt)
      have hxj : x = states.getD j [] :=
        (dist_sq_eq_zero_iff x (states.getD j []) hjdim.symm).1 hzero
      have hsame : states.getD j [] = states.getD k [] := by rw [← hxj, ← hx]
      rw [List.getD_eq_getElem _ _ hjlt, List.getD_eq_getElem _ _ hk] at hsame
      exact absurd ((List.Nodup.getElem_inj_iff hnodup).1 hsame) (by omega)

/-- Witness for C6 at concrete inputs: two states, a sample equal to the
second state; the matcher entry, the argmin properties and the exact-match
property all hold concretely. -/
theorem claim_C6_witness :
    compute_markovian_idx [[], [[0], [1]]] 2 [[[5], [1]]]
      = compute_markovian_idx [[], [[0], [1]]] 2 [[[5], [1]]]
    ∧ ((compute_markovian_idx [[], [[0], [1]]] 2 [[[5], [1]]]).getD 0 []).getD 1 0
        = argminFirst ((([[0], [1]] : List (List ℚ))).map
            (fun markov_state =>
              dist_sq ((([[5], [1]] : List (List ℚ))).getD 1 []) markov_state))
    ∧ argminFirst ((([[0], [1]] : List (List ℚ))).map
        (fun ms => dist_sq [1] ms)) < 2
    ∧ argminFirst ((([[0], [1]] : List (List ℚ))).map
        (fun ms => dist_sq [1] ms)) = 1 := by
  refine ⟨claim_C6_matcher.1 [[], [[0], [1]]] 2 _ _ rfl, ?_, ?_, ?_⟩
  · exact claim_C6_matcher.2.1 [[], [[0], [1]]] 2 [[[5], [1]]] 0 1
      (by norm_num) (by norm_num) (by norm_num)
  · exact (claim_C6_matcher.2.2.1 [[0], [1]] [1] (by simp)).1
  · exact claim_C6_matcher.2.2.2 [[0], [1]] [1] 1 (by norm_num) (by simp)
      (by intro st hst; fin_cases hst <;> simp) (by simp)

/-- C1: exhaustive evaluation (n_simulations = -1) with more than one
worker computes the exact expected policy value as the dot product of the
per-path policy values and the exact path weights; with a single worker,
however, the same computation reads the local variable pv that only the
multiprocessing branch assigns, and the run raises UnboundLocalError after
simulating all sample paths, so the claim's "regardless of the number of
workers" fails on the code. -/
theorem claim_C1_exhaustive_dot_product :
    (∀ (M : ModelData) (T : Nat) (sense : Int) (db : ℚ) (forward : Nat → ℚ)
        (compute_CI : List ℚ → ℚ → ℚ × ℚ) (inp : RunInput),
        inp.n_simulations = -1 → inp.n_processes ≠ 1 →
        inp.query = none → inp.query_dual = none →
        inp.query_stage_cost = false →
        (eval_run M T sense db forward compute_CI inp).result
          = Except.ok
              ⟨(List.range (enumerate_sample_paths M (T - 1)).1).map forward,
               some (dotList
                 ((List.range (enumerate_sample_paths M (T - 1)).1).map forward)
                 ((List.range (enumerate_sample_paths M (T - 1)).1).map
                   (fun j => compute_weight_sample_path M
                     ((enumerate_sample_paths M (T - 1)).2.getD j (SPath.ind []))))),
               none,
               compute_gap_epv db
                 (dotList
                   ((List.range (enumerate_sample_paths M (T - 1)).1).map forward)
                   ((List.range (enumerate_sample_paths M (T - 1)).1).map
                     (fun j => compute_weight_sample_path M
                       ((enumerate_sample_paths M (T - 1)).2.getD j (SPath.ind [])))))⟩)
    ∧ eval_run (ModelData.indep exIndepModels) 2 1 1 (fun j => (j : ℚ))
        (fun _ _ => (0, 0)) ⟨-1, 95, none, none, false, 1⟩
      = ⟨2, Except.error RunError.unboundLocalPv⟩ := by
  constructor
  · intro M T sense db forward compute_CI inp h1 hproc hq hqd hqsc
    have hok : ¬(inp.n_processes ≠ 1 ∧
        (inp.query.isSome ∨ inp.query_dual.isSome ∨ inp.query_stage_cost)) := by
      rw [hq, hqd, hqsc]
      simp
    simp [eval_run, compute_sample_path_idx, hok, h1, hproc, hq, hqd, hqsc,
      compute_gap, compute_gap_try]
  · rfl

/-- Witness for C1's multiprocessing conjunct at a concrete input. -/
theorem claim_C1_witness :
    (eval_run (ModelData.indep exIndepModels) 2 1 1 (fun j => (j : ℚ))
        (fun _ _ => (0, 0)) ⟨-1, 95, none, none, false, 2⟩).result
      = Except.ok
          ⟨(List.range (enumerate_sample_paths (ModelData.indep exIndepModels) 1).1).map
              (fun j => (j : ℚ)),
           some (dotList
             ((List.range (enumerate_sample_paths (ModelData.indep exIndepModels) 1).1).map
               (fun j => (j : ℚ)))
             ((List.range (enumerate_sample_paths (ModelData.indep exIndepModels) 1).1).map
               (fun j => compute_weight_sample_path (ModelData.indep exIndepModels)
                 ((enumerate_sample_paths (ModelData.indep exIndepModels) 1).2.getD j
                   (SPath.ind []))))),
           none,
           compute_gap_epv 1
             (dotList
               ((List.range (enumerate_sample_paths (ModelData.indep exIndepModels) 1).1).map
                 (fun j => (j : ℚ)))
               ((List.range (enumerate_sample_paths (ModelData.indep exIndepModels) 1).1).map
                 (fun j => compute_weight_sample_path (ModelData.indep exIndepModels)
                   ((enumerate_sample_paths (ModelData.indep exIndepModels) 1).2.getD j
                     (SPath.ind [])))))⟩ :=
  claim_C1_exhaustive_dot_product.1 (ModelData.indep exIndepModels) 2 1 1
    (fun j => (j : ℚ)) (fun _ _ => (0, 0)) ⟨-1, 95, none, none, false, 2⟩
    rfl (by norm_num) rfl rfl rfl

/-- C3 counterexample: a run with percentile 101 (outside (0,100)) does not
fail at all, let alone eagerly: it simulates both sample paths (two solver
calls) and returns a normal result.  No percentile validation exists in the
run operation. -/
theorem claim_C3_counterexample :
    (eval_run (ModelData.indep exIndepModels) 2 1 1 (fun j => (j : ℚ))
        (fun pv p => (pv.headD 0, p)) ⟨2, 101, none, none, false, 1⟩).solverCalls = 2
    ∧ ∃ r, (eval_run (ModelData.indep exIndepModels) 2 1 1 (fun j => (j : ℚ))
        (fun pv p => (pv.headD 0, p)) ⟨2, 101, none, none, false, 1⟩).result
          = Except.ok r := by
  refine ⟨rfl, ?_⟩
  obtain ⟨g, hg⟩ := compute_gap_ok_of_CI 1 1
    ((((List.range 2).map (fun j : Nat => (j : ℚ))).headD 0), 101) none
    ((List.range 2).map (fun j : Nat => (j : ℚ)))
  have hres : (eval_run (ModelData.indep exIndepModels) 2 1 1 (fun j => (j : ℚ))
      (fun pv p => (pv.headD 0, p)) ⟨2, 101, none, none, false, 1⟩).result
      = match compute_gap 1 1
          (some ((((List.range 2).map (fun j : Nat => (j : ℚ))).headD 0), 101)) none
          ((List.range 2).map (fun j : Nat => (j : ℚ))) with
        | Except.ok g =>
            Except.ok (⟨(List.range 2).map (fun j : Nat => (j : ℚ)), none,
              some ((((List.range 2).map (fun j : Nat => (j : ℚ))).headD 0), 101),
              g⟩ : RunResult)
        | Except.error _ => Except.error RunError.indexError := rfl
  rw [hres, hg]
  exact ⟨_, rfl⟩

/-- C3 amended: the run operation performs no percentile validation; with
any percentile outside (0,100) (and a parameter set that passes the query
guard) it still simulates every sample path, and the only error it can ever
raise afterwards is the UnboundLocalError of the exhaustive single-process
path, never a parameter error. -/
theorem claim_C3_no_eager_percentile_check (M : ModelData) (T : Nat)
    (sense : Int) (db : ℚ) (forward : Nat → ℚ)
    (compute_CI : List ℚ → ℚ → ℚ × ℚ) (inp : RunInput)
    (hbad : inp.percentile ≤ 0 ∨ 100 ≤ inp.percentile)
    (hok : ¬(inp.n_processes ≠ 1 ∧
        (inp.query.isSome ∨ inp.query_dual.isSome ∨ inp.query_stage_cost))) :
    (eval_run M T sense db forward compute_CI inp).solverCalls
      = (compute_sample_path_idx M T inp.n_simulations).1
    ∧ ∀ e, (eval_run M T sense db forward compute_CI inp).result
        = Except.error e → e = RunError.unboundLocalPv := by
  by_cases h2 : inp.n_processes ≠ 1
  · have hq3 : ¬(inp.query.isSome = true ∨ inp.query_dual.isSome = true ∨
        inp.query_stage_cost = true) := fun hc => hok ⟨h2, hc⟩
    by_cases h1 : inp.n_simulations = -1
    · constructor
      · simp [eval_run, hq3, h1, h2]
      · intro e he
        simp [eval_run, hq3, h1, h2, compute_gap, compute_gap_try] at he
    · constructor
      · simp [eval_run, hq3, h1, h2]
      · intro e he
        by_cases h3 : inp.n_simulations = 1
        · simp [eval_run, hq3, h1, h2, h3, compute_sample_path_idx,
            List.range_succ] at he
          obtain ⟨g, hg⟩ := compute_gap_ok_of_pv sense db (forward 0) []
          rw [hg] at he
          simp at he
        · simp [eval_run, hq3, h1, h2, h3, compute_sample_path_idx] at he
          obtain ⟨g, hg⟩ := compute_gap_ok_of_CI sense db
            (compute_CI ((List.range inp.n_simulations.toNat).map forward)
              inp.percentile) none
            ((List.range inp.n_simulations.toNat).map forward)
          rw [hg] at he
          simp at he
  · by_cases h1 : inp.n_simulations = -1
    · constructor
      · simp [eval_run, h1, h2]
      · intro e he
        simp [eval_run, h1, h2] at he
        exact he.symm
    · constructor
      · simp [eval_run, h1, h2]
      · intro e he
        by_cases h3 : inp.n_simulations = 1
        · simp [eval_run, h1, h2, h3, compute_sample_path_idx,
            List.range_succ] at he
          obtain ⟨g, hg⟩ := compute_gap_ok_of_pv sense db (forward 0) []
          rw [hg] at he
          simp at he
        · simp [eval_run, h1, h2, h3, compute_sample_path_idx] at he
          obtain ⟨g, hg⟩ := compute_gap_ok_of_CI sense db
            (compute_CI ((List.range inp.n_simulations.toNat).map forward)
              inp.percentile) none
            ((List.range inp.n_simulations.toNat).map forward)
          rw [hg] at he
          simp at he

/-- Witness for the amended C3 at a concrete input: percentile 101, one
process, two simulations. -/
theorem claim_C3_witness :
    (eval_run (ModelData.indep exIndepModels) 2 1 1 (fun j => (j : ℚ))
        (fun pv p => (pv.headD 0, p)) ⟨2, 101, none, none, false, 1⟩).solverCalls
      = (compute_sample_path_idx (ModelData.indep exIndepModels) 2 2).1
    ∧ ∀ e, (eval_run (ModelData.indep exIndepModels) 2 1 1 (fun j => (j : ℚ))
        (fun pv p => (pv.headD 0, p)) ⟨2, 101, none, none, false, 1⟩).result
          = Except.error e → e = RunError.unboundLocalPv :=
  claim_C3_no_eager_percentile_check (ModelData.indep exIndepModels) 2 1 1
    (fun j => (j : ℚ)) (fun pv p => (pv.headD 0, p)) ⟨2, 101, none, none, false, 1⟩
    (Or.inr (by norm_num)) (by simp)

/-- C4: exhaustive enumeration reports and produces exactly the product of
per-stage outcome counts many sample paths in the pure independent case,
and that product times the product of per-stage Markov-state counts in the
mixed case; the enumerated paths are pairwise distinct; and the weights of
all enumerated paths sum to 1 (for valid stage measures, row-stochastic
transition matrices, a single stage-0 Markov state, and stage-wide outcome
counts). -/
theorem claim_C4_enumeration :
    (∀ (models : List StageModel) (T : Nat),
        T + 1 = models.length → (∀ m ∈ models, validStage m) →
        (enumerate_sample_paths (ModelData.indep models) T).1
            = (models.map (fun m => m.n_samples)).prod
        ∧ (enumerate_sample_paths (ModelData.indep models) T).2.length
            = (models.map (fun m => m.n_samples)).prod
        ∧ (enumerate_sample_paths (ModelData.indep models) T).2.Nodup
        ∧ ((enumerate_sample_paths (ModelData.indep models) T).2.map
            (compute_weight_sample_path (ModelData.indep models))).sum = 1)
    ∧ (∀ (m0 : List StageModel) (mr : List (List StageModel)) (nMr : List Nat)
          (TM0 : List (List ℚ)) (tms : List (List (List ℚ))) (T : Nat),
        T + 1 = (m0 :: mr).length →
        T + 1 = (1 :: nMr).length →
        List.Forall₂ validMarkovStage (m0 :: mr) (1 :: nMr) →
        stochasticChain 1 tms nMr →
        (enumerate_sample_paths
            (ModelData.markov (m0 :: mr) (1 :: nMr) (TM0 :: tms)) T).1
            = (1 :: nMr).prod *
              ((m0 :: mr).map (fun ms => (ms.getD 0 dfltModel).n_samples)).prod
        ∧ (enumerate_sample_paths
            (ModelData.markov (m0 :: mr) (1 :: nMr) (TM0 :: tms)) T).2.length
            = (1 :: nMr).prod *
              ((m0 :: mr).map (fun ms => (ms.getD 0 dfltModel).n_samples)).prod
        ∧ (enumerate_sample_paths
            (ModelData.markov (m0 :: mr) (1 :: nMr) (TM0 :: tms)) T).2.Nodup
        ∧ ((enumerate_sample_paths
            (ModelData.markov (m0 :: mr) (1 :: nMr) (TM0 :: tms)) T).2.map
            (compute_weight_sample_path
              (ModelData.markov (m0 :: mr) (1 :: nMr) (TM0 :: tms)))).sum = 1) := by
  constructor
  · intro models T hT hv
    rw [enumerate_indep_eq models T hT]
    refine ⟨rfl, ?_, ?_, ?_⟩
    · simp only [List.length_map]
      rw [length_listProd, List.map_map]
      have hc : (List.length ∘ fun m : StageModel => List.range m.n_samples)
          = fun m : StageModel => m.n_samples := by
        funext m
        simp
      rw [hc]
    · refine (nodup_listProd _ ?_).map (fun p q hpq => by injection hpq)
      intro l hl
      rcases List.mem_map.1 hl with ⟨m, _, rfl⟩
      exact List.nodup_range m.n_samples
    · rw [List.map_map]
      exact sum_weights_indep_models models hv
  · intro m0 mr nMr TM0 tms T hTm hTn hv hchain
    rw [enumerate_markov_eq _ _ _ T hTm hTn]
    refine ⟨rfl, ?_, ?_, ?_⟩
    · simp only [List.length_map]
      rw [length_pairProd, length_listProd, length_listProd,
        List.map_map, List.map_map]
      have hc1 : (List.length ∘ fun ms : List StageModel =>
          List.range (ms.getD 0 dfltModel).n_samples)
          = fun ms : List StageModel => (ms.getD 0 dfltModel).n_samples := by
        funext ms
        simp
      have hc2 : (List.length ∘ List.range) = fun n : Nat => n := by
        funext n
        simp
      rw [hc1, hc2]
      have hid : ((1 : Nat) :: nMr).map (fun n => n) = 1 :: nMr :=
        List.map_id' (1 :: nMr)
      rw [hid, Nat.mul_comm]
    · refine (nodup_pairProd _ _ (nodup_listProd _ ?_) (nodup_listProd _ ?_)).map
        (fun p q hpq => ?_)
      · intro l hl
        rcases List.mem_map.1 hl with ⟨ms, _, rfl⟩
        exact List.nodup_range _
      · intro l hl
        rcases List.mem_map.1 hl with ⟨k, _, rfl⟩
        exact List.nodup_range k
      · obtain ⟨pa, pb⟩ := p
        obtain ⟨qa, qb⟩ := q
        injection hpq with h1 h2
        simp only at h1 h2
        simp [h1, h2]
    · rw [List.map_map]
      exact sum_weights_markov_models m0 mr nMr TM0 tms hv hchain

/-- Witness for C4 at the concrete example programs: the two-stage
independent program and the three-stage Markov chain. -/
theorem claim_C4_witness :
    ((enumerate_sample_paths (ModelData.indep exIndepModels) 1).1
        = (exIndepModels.map (fun m => m.n_samples)).prod
      ∧ (enumerate_sample_paths (ModelData.indep exIndepModels) 1).2.length
        = (exIndepModels.map (fun m => m.n_samples)).prod
      ∧ (enumerate_sample_paths (ModelData.indep exIndepModels) 1).2.Nodup
      ∧ ((enumerate_sample_paths (ModelData.indep exIndepModels) 1).2.map
          (compute_weight_sample_path (ModelData.indep exIndepModels))).sum = 1)
    ∧ ((enumerate_sample_paths
          (ModelData.markov exMarkovModels exnM extm) 2).1
        = exnM.prod *
          (exMarkovModels.map (fun ms => (ms.getD 0 dfltModel).n_samples)).prod
      ∧ (enumerate_sample_paths
          (ModelData.markov exMarkovModels exnM extm) 2).2.length
        = exnM.prod *
          (exMarkovModels.map (fun ms => (ms.getD 0 dfltModel).n_samples)).prod
      ∧ (enumerate_sample_paths
          (ModelData.markov exMarkovModels exnM extm) 2).2.Nodup
      ∧ ((enumerate_sample_paths
          (ModelData.markov exMarkovModels exnM extm) 2).2.map
          (compute_weight_sample_path
            (ModelData.markov exMarkovModels exnM extm))).sum = 1) := by
  have hvalid1 : validStage (⟨1, none⟩ : StageModel) :=
    ⟨by norm_num, fun p h => by simp at h⟩
  have hvalid2 : validStage (⟨2, none⟩ : StageModel) :=
    ⟨by norm_num, fun p h => by simp at h⟩
  constructor
  · exact claim_C4_enumeration.1 exIndepModels 1 rfl
      (by intro m hm; fin_cases hm
          · exact hvalid1
          · exact hvalid2)
  · have hforall : List.Forall₂ validMarkovStage exMarkovModels exnM := by
      refine List.Forall₂.cons ?_ (List.Forall₂.cons ?_ (List.Forall₂.cons ?_ List.Forall₂.nil))
      · exact ⟨by norm_num, by norm_num, by
          intro m hm
          fin_cases hm
          exact ⟨hvalid1, rfl⟩⟩
      · exact ⟨by norm_num, by norm_num, by
          intro m hm
          fin_cases hm <;> exact ⟨hvalid1, rfl⟩⟩
      · exact ⟨by norm_num, by norm_num, by
          intro m hm
          fin_cases hm <;> exact ⟨hvalid1, rfl⟩⟩
    have hchain : stochasticChain 1 [[[3/10, 7/10]], [[6/10, 4/10], [2/10, 8/10]]] [2, 2] := by
      refine ⟨rfl, ?_, rfl, ?_, trivial⟩
      · intro row hr
        fin_cases hr
        exact ⟨rfl, by norm_num⟩
      · intro row hr
        fin_cases hr <;> exact ⟨rfl, by norm_num⟩
    exact claim_C4_enumeration.2 [⟨1, none⟩]
      [[⟨1, none⟩, ⟨1, none⟩], [⟨1, none⟩, ⟨1, none⟩]] [2, 2] [[1]]
      [[[3/10, 7/10]], [[6/10, 4/10], [2/10, 8/10]]] 2 rfl rfl hforall hchain

lemma probOf_getD (m : StageModel) (i : Nat) (hi : i < m.n_samples) :
    (m.probability.getD (uniformProb m.n_samples)).getD i 0 = probabilityOf m i := by
  cases hp : m.probability with
  | some p => simp [probabilityOf, hp]
  | none =>
      simp only [Option.getD]
      rw [uniformProb, getD_replicate_of_lt _ _ _ _ hi]
      simp [probabilityOf, hp]

/-- C5: the weight of a full sample path is the product of the stage-wise
outcome probabilities (uniform by default) in the independent case, and the
product of the transition probabilities along the Markov-state index
sequence times the product of the per-Markov-state conditional outcome
probabilities in the mixed case; on the 3-stage example chain with
transition matrices [[1]], [[0.3,0.7]], [[0.6,0.4],[0.2,0.8]] the
enumeration yields exactly 4 paths with weights 0.18, 0.12, 0.14, 0.56
summing to 1. -/
theorem claim_C5_weight_formula :
    (∀ (models : List StageModel) (path : List Nat),
        path.length ≤ models.length →
        (∀ t, t < path.length →
          path.getD t 0 < (models.getD t dfltModel).n_samples) →
        compute_weight_sample_path (ModelData.indep models) (SPath.ind path)
          = ((List.range path.length).map
              (fun t => probabilityOf (models.getD t dfltModel)
                (path.getD t 0))).prod)
    ∧ (∀ (models : List (List StageModel)) (nM : List Nat)
          (tm : List (List (List ℚ))) (outcome markov : List Nat),
        outcome.length ≤ models.length →
        (∀ t, t < outcome.length →
          markov.getD t 0 < (models.getD t []).length) →
        (∀ t, t < outcome.length →
          outcome.getD t 0
            < ((models.getD t []).getD (markov.getD t 0) dfltModel).n_samples) →
        compute_weight_sample_path (ModelData.markov models nM tm)
            (SPath.pair outcome markov)
          = (((List.range (outcome.length - 1)).map (fun i =>
                ((tm.getD (i + 1) []).getD (markov.getD i 0) []).getD
                  (markov.getD (i + 1) 0) 0)).prod)
            * (((List.range outcome.length).map (fun t =>
                probabilityOf ((models.getD t []).getD (markov.getD t 0) dfltModel)
                  (outcome.getD t 0))).prod))
    ∧ enumerate_sample_paths (ModelData.markov exMarkovModels exnM extm) 2
        = (4, [SPath.pair [0, 0, 0] [0, 0, 0], SPath.pair [0, 0, 0] [0, 0, 1],
               SPath.pair [0, 0, 0] [0, 1, 0], SPath.pair [0, 0, 0] [0, 1, 1]])
    ∧ ((enumerate_sample_paths (ModelData.markov exMarkovModels exnM extm) 2).2.map
        (compute_weight_sample_path (ModelData.markov exMarkovModels exnM extm)))
        = [9/50, 3/25, 7/50, 14/25]
    ∧ ((enumerate_sample_paths (ModelData.markov exMarkovModels exnM extm) 2).2.map
        (compute_weight_sample_path (ModelData.markov exMarkovModels exnM extm))).sum
        = 1 := by
  refine ⟨?_, ?_, ?_, ?_, ?_⟩
  · intro models path hlen hin
    simp only [compute_weight_sample_path]
    refine congrArg List.prod (List.map_congr_left ?_)
    intro t htr
    have ht := List.mem_range.1 htr
    have htm : t < models.length := lt_of_lt_of_le ht hlen
    rw [set_up_probability_indep, getD_map models _ t [] dfltModel htm,
      probOf_getD _ _ (hin t ht)]
  · intro models nM tm outcome markov hlen hmk hout
    simp only [compute_weight_sample_path]
    refine congrArg (_ * ·) (congrArg List.prod (List.map_congr_left ?_))
    intro t htr
    have ht := List.mem_range.1 htr
    have htm : t < models.length := lt_of_lt_of_le ht hlen
    rw [set_up_probability_markov, getD_map models _ t [] [] htm,
      getD_map (models.getD t []) _ (markov.getD t 0) [] dfltModel (hmk t ht),
      probOf_getD _ _ (hout t ht)]
  · rfl
  · have he : (enumerate_sample_paths (ModelData.markov exMarkovModels exnM extm) 2).2
        = [SPath.pair [0, 0, 0] [0, 0, 0], SPath.pair [0, 0, 0] [0, 0, 1],
           SPath.pair [0, 0, 0] [0, 1, 0], SPath.pair [0, 0, 0] [0, 1, 1]] := rfl
    rw [he]
    simp only [List.map_cons, List.map_nil, compute_weight_sample_path,
      exMarkovModels, exnM, extm, set_up_probability_markov, uniformProb]
    norm_num [List.range_succ]
  · have he : (enumerate_sample_paths (ModelData.markov exMarkovModels exnM extm) 2).2
        = [SPath.pair [0, 0, 0] [0, 0, 0], SPath.pair [0, 0, 0] [0, 0, 1],
           SPath.pair [0, 0, 0] [0, 1, 0], SPath.pair [0, 0, 0] [0, 1, 1]] := rfl
    rw [he]
    simp only [List.map_cons, List.map_nil, compute_weight_sample_path,
      exMarkovModels, exnM, extm, set_up_probability_markov, uniformProb]
    norm_num [List.range_succ]

/-- Witness for C5's two formula conjuncts at concrete paths. -/
theorem claim_C5_witness :
    compute_weight_sample_path (ModelData.indep exIndepModels) (SPath.ind [0, 1])
      = ((List.range ([0, 1] : List Nat).length).map
          (fun t => probabilityOf (exIndepModels.getD t dfltModel)
            (([0, 1] : List Nat).getD t 0))).prod
    ∧ compute_weight_sample_path (ModelData.markov exMarkovModels exnM extm)
        (SPath.pair [0, 0, 0] [0, 1, 0])
      = (((List.range (([0, 0, 0] : List Nat).length - 1)).map (fun i =>
            ((extm.getD (i + 1) []).getD (([0, 1, 0] : List Nat).getD i 0) []).getD
              (([0, 1, 0] : List Nat).getD (i + 1) 0) 0)).prod)
        * (((List.range ([0, 0, 0] : List Nat).length).map (fun t =>
            probabilityOf ((exMarkovModels.getD t []).getD
                (([0, 1, 0] : List Nat).getD t 0) dfltModel)
              (([0, 0, 0] : List Nat).getD t 0))).prod) := by
  constructor
  · exact claim_C5_weight_formula.1 exIndepModels [0, 1] (by decide) (by decide)
  · exact claim_C5_weight_formula.2.1 exMarkovModels exnM extm [0, 0, 0] [0, 1, 0]
      (by decide) (by decide) (by decide)

end MSPPy
